import Mathlib

open BigOperators

/-- Python exception as raised by the toolkit or by numpy: an exception class
name (for example ValueError or TypeError) together with its message. -/
structure PyErr where
  kind : String
  msg : String
  deriving DecidableEq

/-- Error raised by numpy matmul (the @ operator) on a dimension mismatch. -/
def matmulErr : PyErr := ⟨"ValueError", "matmul: dimension mismatch"⟩

/-- Dot product of two 1-D numpy arrays, a @ b.  Numpy raises a ValueError when
the lengths differ; floats are idealized as rationals. -/
def dotE (a b : List ℚ) : Except PyErr ℚ :=
  if a.length = b.length then .ok ((List.zipWith (fun x y => x * y) a b).sum)
  else .error matmulErr

/-- Model of portfolio_return(weights, returns) = weights.T @ returns (the
transpose of a 1-D array is itself). -/
def portfolio_return (weights rets : List ℚ) : Except PyErr ℚ :=
  dotE weights rets

/-- Vector-matrix product v @ M for a 1-D array v and a 2-D array M.  Numpy
requires M to be rectangular with as many rows as v has entries; otherwise the
@ operator raises a ValueError. -/
def vecMat (v : List ℚ) (M : List (List ℚ)) : Except PyErr (List ℚ) :=
  if M.length = v.length ∧ ∀ row ∈ M, row.length = (M.headD []).length then
    .ok ((List.range (M.headD []).length).map
      (fun j => (List.zipWith (fun x row => x * row.getD j 0) v M).sum))
  else .error matmulErr

/-- Quadratic form weights.T @ covmat @ weights, associated as in Python:
(weights.T @ covmat) @ weights. -/
def quadFormE (w : List ℚ) (covmat : List (List ℚ)) : Except PyErr ℚ :=
  match vecMat w covmat with
  | .ok u => dotE u w
  | .error e => .error e

/-- Value of np.sqrt on an (idealized, rational) radicand: the constructor
Vol.sqrt q denotes the principal, non-negative real square root of q and is
only built for 0 ≤ q; a negative radicand yields the float NaN (numpy emits a
RuntimeWarning but raises no exception). -/
inductive Vol where
  | nan : Vol
  | sqrt (radicand : ℚ) : Vol
  deriving DecidableEq

/-- Model of np.sqrt: NaN on a negative input, otherwise the square root,
kept symbolically as its radicand. -/
def npSqrt (q : ℚ) : Vol :=
  if q < 0 then .nan else .sqrt q

/-- Model of portfolio_vol(weights, covmat) = np.sqrt(weights.T @ covmat @ weights). -/
def portfolio_vol (weights : List ℚ) (covmat : List (List ℚ)) : Except PyErr Vol :=
  match quadFormE weights covmat with
  | .ok q => .ok (npSqrt q)
  | .error e => .error e

/-- Value of the float expression -(r - riskfree_rate)/vol where vol came from
np.sqrt: either NaN, a signed infinity, or the symbolic fraction
num / sqrt radicand with a positive radicand. -/
inductive SVal where
  | nan : SVal
  | pinf : SVal
  | ninf : SVal
  | frac (num radicand : ℚ) : SVal
  deriving DecidableEq

/-- IEEE division num / vol for vol a square-root value: x/NaN is NaN, x/0 is a
signed infinity for x not 0 and NaN for x = 0, and otherwise the symbolic
fraction num / sqrt q. -/
def mkSR (num : ℚ) : Vol → SVal
  | .nan => .nan
  | .sqrt q =>
      if q = 0 then
        (if 0 < num then .pinf else if num < 0 then .ninf else .nan)
      else .frac num q

/-- IEEE ≤ on SVal values: every comparison with NaN is false; -inf is below
everything else and +inf above; a/sqrt q ≤ b/sqrt r (with q, r > 0) is decided
by sign analysis and by squaring the cross-multiplied inequality. -/
def SVal.le : SVal → SVal → Bool
  | .nan, _ => false
  | _, .nan => false
  | .ninf, _ => true
  | _, .pinf => true
  | .pinf, _ => false
  | .frac _ _, .ninf => false
  | .frac a q, .frac b r =>
      if 0 < a then decide (0 < b) && decide (a * a * r ≤ b * b * q)
      else if 0 ≤ b then true
      else decide (b * b * q ≤ a * a * r)

/-- Model of the inner function neg_sharpe_ratio of msr: computes the portfolio
return and volatility and returns -(r - riskfree_rate)/vol.  A zero volatility
produces a non-finite float, not an exception. -/
def neg_sharpe_obj (weights : List ℚ) (riskfree_rate : ℚ) (er : List ℚ)
    (cov : List (List ℚ)) : Except PyErr SVal :=
  match portfolio_return weights er with
  | .error e => .error e
  | .ok r =>
    match portfolio_vol weights cov with
    | .error e => .error e
    | .ok v => .ok (mkSR (-(r - riskfree_rate)) v)

/-- True when the objective evaluation returned (without raising) a non-finite
float value: NaN, +inf or -inf. -/
def isNonFiniteE (e : Except PyErr SVal) : Bool :=
  match e with
  | .ok .nan => true
  | .ok .pinf => true
  | .ok .ninf => true
  | _ => false

/-- The data handed to scipy.optimize.minimize by the toolkit: the dimension
(taken from the shape of the inputs), the initial guess, the per-coordinate
bounds, the equality constraints (each satisfied when it evaluates to 0), and
the objective.  Objective values have type α (a volatility for minimize_vol,
a negative Sharpe value for msr). -/
structure OptProblem (α : Type) where
  dim : ℕ
  init : List ℚ
  bounds : List (ℚ × ℚ)
  eqConstraints : List (List ℚ → Except PyErr ℚ)
  objective : List ℚ → Except PyErr α

/-- The optimization problem built by minimize_vol(target_return, er, cov):
objective portfolio_vol with args (cov,), equal-weight initial guess, bounds
((0.0, 1.0),) * n, and the two equality constraints weight_sum and
target_return_equal exactly as the source builds them. -/
def minVolProblem (target_return : ℚ) (er : List ℚ) (cov : List (List ℚ)) :
    OptProblem Vol :=
  { dim := er.length
    init := List.replicate er.length (1 / (er.length : ℚ))
    bounds := List.replicate er.length (0, 1)
    eqConstraints :=
      [fun weights => .ok (weights.sum - 1),
       fun weights =>
         match portfolio_return weights er with
         | .ok r => .ok (target_return - r)
         | .error e => .error e]
    objective := fun weights => portfolio_vol weights cov }

/-- The optimization problem built by msr(riskfree_rate, er, cov): objective
neg_sharpe_ratio, equal-weight initial guess, bounds ((0.0, 1.0),) * n, and the
single weight_sum equality constraint. -/
def msrProblem (riskfree_rate : ℚ) (er : List ℚ) (cov : List (List ℚ)) :
    OptProblem SVal :=
  { dim := er.length
    init := List.replicate er.length (1 / (er.length : ℚ))
    bounds := List.replicate er.length (0, 1)
    eqConstraints := [fun weights => .ok (weights.sum - 1)]
    objective := fun weights => neg_sharpe_obj weights riskfree_rate er cov }

/-- Model of minimize_vol(target_return, er, cov): the SLSQP call is abstracted
as a solver argument receiving exactly the problem the source constructs, and
the function returns the solver result (weights.x). -/
def minimize_vol (solver : OptProblem Vol → List ℚ) (target_return : ℚ)
    (er : List ℚ) (cov : List (List ℚ)) : List ℚ :=
  solver (minVolProblem target_return er cov)

/-- Model of msr(riskfree_rate, er, cov), with the SLSQP call abstracted as a
solver argument. -/
def msr (solver : OptProblem SVal → List ℚ) (riskfree_rate : ℚ) (er : List ℚ)
    (cov : List (List ℚ)) : List ℚ :=
  solver (msrProblem riskfree_rate er cov)

/-- Model of gmv(cov) = msr(0, np.repeat(1, n), cov) with n = cov.shape[0]. -/
def gmv (solver : OptProblem SVal → List ℚ) (cov : List (List ℚ)) : List ℚ :=
  msr solver 0 (List.replicate cov.length 1) cov

/-- Model of ndarray.min() (the fold is total; the numpy call presupposes a
nonempty array). -/
def npMin (l : List ℚ) : ℚ := l.foldr min (l.headD 0)

/-- Model of ndarray.max(). -/
def npMax (l : List ℚ) : ℚ := l.foldr max (l.headD 0)

/-- Model of np.linspace(a, b, k): k evenly spaced points from a to b. -/
def linspace (a b : ℚ) (k : ℕ) : List ℚ :=
  if k = 0 then []
  else if k = 1 then [a]
  else (List.range k).map (fun i => a + (b - a) * i / ((k : ℚ) - 1))

/-- Model of optimal_weights(n_points, er, cov): minimize_vol at n_points
evenly spaced targets between er.min() and er.max(). -/
def optimal_weights (solver : OptProblem Vol → List ℚ) (n_points : ℕ)
    (er : List ℚ) (cov : List (List ℚ)) : List (List ℚ) :=
  (linspace (npMin er) (npMax er) n_points).map
    (fun target_return => minimize_vol solver target_return er cov)

instance {ε α : Type} [DecidableEq ε] [DecidableEq α] : DecidableEq (Except ε α) :=
  fun a b =>
    match a, b with
    | .ok x, .ok y =>
        if h : x = y then isTrue (by rw [h]) else isFalse (fun hh => h (Except.ok.inj hh))
    | .error e, .error f =>
        if h : e = f then isTrue (by rw [h]) else isFalse (fun hh => h (Except.error.inj hh))
    | .ok _, .error _ => isFalse (fun hh => Except.noConfusion hh)
    | .error _, .ok _ => isFalse (fun hh => Except.noConfusion hh)

/-- A point satisfies the problem handed to SLSQP: it has the dimension of the
initial guess, respects every bound, and satisfies every equality constraint
exactly.  This is the contract of a converged scipy solve. -/
def Feasible {α : Type} (p : OptProblem α) (w : List ℚ) : Prop :=
  w.length = p.dim ∧
  (∀ pr ∈ List.zip w p.bounds, pr.2.1 ≤ pr.1 ∧ pr.1 ≤ pr.2.2) ∧
  (∀ c ∈ p.eqConstraints, c w = Except.ok 0)

instance {α : Type} (p : OptProblem α) (w : List ℚ) : Decidable (Feasible p w) := by
  unfold Feasible
  exact inferInstance

/-- The weight-vector invariant stated by the specification: length N, entries
in [0, 1], fully invested. -/
def GoodWeights (n : ℕ) (w : List ℚ) : Prop :=
  w.length = n ∧ (∀ x ∈ w, 0 ≤ x ∧ x ≤ 1) ∧ w.sum = 1

/-- The set of feasible points of a max-Sharpe problem whose objective value is
(IEEE-) below the objective value of every feasible point: the outputs an exact
minimizing solver may return. -/
def OptimalSet (p : OptProblem SVal) : Set (List ℚ) :=
  { w | Feasible p w ∧ ∀ u, Feasible p u →
      ∃ a b, p.objective w = Except.ok a ∧ p.objective u = Except.ok b ∧
        SVal.le a b = true }

/-- Sequencing of a fallible computation over a list of weight rows, as the
list comprehensions in plot_ef2 behave: the first raised exception aborts. -/
def mapME {α : Type} (f : List ℚ → Except PyErr α) : List (List ℚ) → Except PyErr (List α)
  | [] => .ok []
  | w :: ws =>
    match f w with
    | .error e => .error e
    | .ok a =>
      match mapME f ws with
      | .error e => .error e
      | .ok rest => .ok (a :: rest)

/-- Model of plot_ef2(n_points, er, cov): the two-asset guard, then the weight
sweep and the (Returns, Volatility) table; the final matplotlib rendering is
outside the model, so the table itself is returned. -/
def plot_ef2 (n_points : ℕ) (er : List ℚ) (cov : List (List ℚ)) :
    Except PyErr (List ℚ × List Vol) :=
  if er.length ≠ 2 then
    .error ⟨"ValueError", "plot_ef2 can only plot 2 asset frontiers."⟩
  else
    match mapME (fun w => portfolio_return w er)
        ((linspace 0 1 n_points).map (fun w => [w, 1 - w])) with
    | .error e => .error e
    | .ok rets =>
      match mapME (fun w => portfolio_vol w cov)
          ((linspace 0 1 n_points).map (fun w => [w, 1 - w])) with
      | .error e => .error e
      | .ok vols => .ok (rets, vols)

/-- Insertion of one element into a sorted list, for the sorting performed
inside np.percentile. -/
def insSorted (x : ℚ) : List ℚ → List ℚ
  | [] => [x]
  | y :: ys => if x ≤ y then x :: y :: ys else y :: insSorted x ys

/-- Insertion sort, ascending. -/
def sortQ (xs : List ℚ) : List ℚ := xs.foldr insSorted []

/-- Model of np.percentile(xs, p) with the default linear interpolation: sort,
take the fractional index (n - 1) * p / 100, interpolate between the two
neighbouring order statistics.  Total on the empty list only to keep the model
executable; the claims about it are scoped to nonempty data. -/
def percentile (xs : List ℚ) (p : ℚ) : ℚ :=
  let s := sortQ xs
  let n := xs.length
  if n = 0 then 0
  else
    let h := ((n : ℚ) - 1) * p / 100
    let i := (Int.toNat ⌊h⌋)
    let lo := s.getD i 0
    let hi := s.getD (min (i + 1) (n - 1)) 0
    lo + (h - (i : ℚ)) * (hi - lo)

/-- Scalar branch of var_historic on a Series: -np.percentile(r, level). -/
def varSeries (xs : List ℚ) (level : ℚ) : ℚ := -(percentile xs level)

/-- A pandas float scalar: NaN (as produced by the mean of an empty selection)
or an idealized rational value. -/
inductive PFloat where
  | nan : PFloat
  | val (q : ℚ) : PFloat
  deriving DecidableEq

/-- Scalar branch of cvar_historic on a Series: select the returns at or below
-var_historic(r, level) and negate their mean; the mean of an empty selection
is NaN. -/
def cvarSeries (xs : List ℚ) (level : ℚ) : PFloat :=
  let beyond := xs.filter (fun x => x ≤ -(varSeries xs level))
  if beyond.length = 0 then .nan
  else .val (-(beyond.sum / (beyond.length : ℚ)))

/-- Input of var_historic and cvar_historic: a pandas Series, a pandas
DataFrame (kept as its list of columns; column labels are irrelevant here), or
any value of another type. -/
inductive RObj where
  | series (xs : List ℚ) : RObj
  | df (cols : List (List ℚ)) : RObj
  | other : RObj

/-- Result of var_historic: a scalar for a Series input, a Series of per-column
scalars for a DataFrame input. -/
inductive VarRes where
  | scalar (q : ℚ) : VarRes
  | series (xs : List ℚ) : VarRes
  deriving DecidableEq

/-- Result of cvar_historic. -/
inductive CvarRes where
  | scalar (v : PFloat) : CvarRes
  | series (xs : List PFloat) : CvarRes
  deriving DecidableEq

/-- The TypeError raised by var_historic and cvar_historic on a non-pandas
input. -/
def typeErr : PyErr := ⟨"TypeError", "Expected r to be a Series or DataFrame."⟩

/-- Model of var_historic(r, level): aggregate column-wise on a DataFrame,
negate the percentile on a Series, raise TypeError otherwise. -/
def var_historic : RObj → ℚ → Except PyErr VarRes
  | .df cols, level => .ok (.series (cols.map (fun c => varSeries c level)))
  | .series xs, level => .ok (.scalar (varSeries xs level))
  | .other, _ => .error typeErr

/-- Model of cvar_historic(r, level): aggregate column-wise on a DataFrame,
negated tail mean on a Series, raise TypeError otherwise. -/
def cvar_historic : RObj → ℚ → Except PyErr CvarRes
  | .df cols, level => .ok (.series (cols.map (fun c => cvarSeries c level)))
  | .series xs, level => .ok (.scalar (cvarSeries xs level))
  | .other, _ => .error typeErr

/-- Permutation of the entries of a length-n weight vector. -/
def permVec {n : ℕ} (π : Equiv.Perm (Fin n)) (w : List ℚ) : List ℚ :=
  List.ofFn (fun i => w.getD (π i) 0)

/-- Consistent permutation of the rows and columns of an n × n covariance
matrix. -/
def permMat {n : ℕ} (π : Equiv.Perm (Fin n)) (cov : List (List ℚ)) :
    List (List ℚ) :=
  List.ofFn (fun i => List.ofFn (fun j => (cov.getD (π i) []).getD (π j) 0))

theorem dotE_ok {a b : List ℚ} (h : a.length = b.length) :
    dotE a b = .ok ((List.zipWith (fun x y => x * y) a b).sum) := by
  simp [dotE, h]

theorem dotE_err {a b : List ℚ} (h : a.length ≠ b.length) :
    dotE a b = .error matmulErr := by
  simp [dotE, h]

theorem portfolio_return_ok {a b : List ℚ} (h : a.length = b.length) :
    portfolio_return a b = .ok ((List.zipWith (fun x y => x * y) a b).sum) :=
  dotE_ok h

theorem vecMat_ok {v : List ℚ} {M : List (List ℚ)}
    (h : M.length = v.length ∧ ∀ row ∈ M, row.length = (M.headD []).length) :
    vecMat v M = .ok ((List.range (M.headD []).length).map
      (fun j => (List.zipWith (fun x row => x * row.getD j 0) v M).sum)) := by
  unfold vecMat
  rw [if_pos h]

theorem vecMat_err {v : List ℚ} {M : List (List ℚ)}
    (h : ¬(M.length = v.length ∧ ∀ row ∈ M, row.length = (M.headD []).length)) :
    vecMat v M = .error matmulErr := by
  unfold vecMat
  rw [if_neg h]

theorem quadFormE_ok_vec {w : List ℚ} {cov : List (List ℚ)} {u : List ℚ}
    (h : vecMat w cov = .ok u) : quadFormE w cov = dotE u w := by
  unfold quadFormE
  rw [h]

theorem quadFormE_err_vec {w : List ℚ} {cov : List (List ℚ)} {e : PyErr}
    (h : vecMat w cov = .error e) : quadFormE w cov = .error e := by
  unfold quadFormE
  rw [h]

theorem portfolio_vol_ok {w : List ℚ} {cov : List (List ℚ)} {q : ℚ}
    (h : quadFormE w cov = .ok q) : portfolio_vol w cov = .ok (npSqrt q) := by
  unfold portfolio_vol
  rw [h]

theorem portfolio_vol_err {w : List ℚ} {cov : List (List ℚ)} {e : PyErr}
    (h : quadFormE w cov = .error e) : portfolio_vol w cov = .error e := by
  unfold portfolio_vol
  rw [h]

theorem neg_sharpe_obj_vol_err {w er : List ℚ} {cov : List (List ℚ)} {rf r : ℚ} {e : PyErr}
    (h1 : portfolio_return w er = .ok r) (h2 : portfolio_vol w cov = .error e) :
    neg_sharpe_obj w rf er cov = .error e := by
  unfold neg_sharpe_obj
  rw [h1, h2]

theorem neg_sharpe_obj_ok {w er : List ℚ} {cov : List (List ℚ)} {rf r : ℚ} {v : Vol}
    (h1 : portfolio_return w er = .ok r) (h2 : portfolio_vol w cov = .ok v) :
    neg_sharpe_obj w rf er cov = .ok (mkSR (-(r - rf)) v) := by
  unfold neg_sharpe_obj
  rw [h1, h2]

/-- Squareness failure of the covariance matrix relative to a length-n weight
vector makes the quadratic form raise the numpy matmul ValueError: either the
row count differs from n, or the matrix is ragged, or it is rectangular with a
column count different from n, in which case the outer dot product fails. -/
theorem quadFormE_shape_err (n : ℕ) {w : List ℚ} {cov : List (List ℚ)}
    (hw : w.length = n)
    (hs : ¬(cov.length = n ∧ ∀ row ∈ cov, row.length = n)) :
    quadFormE w cov = .error matmulErr := by
  by_cases hcond : cov.length = w.length ∧ ∀ row ∈ cov, row.length = (cov.headD []).length
  · obtain ⟨hlen, hrect⟩ := hcond
    rw [quadFormE_ok_vec (vecMat_ok ⟨hlen, hrect⟩)]
    have hne : (cov.headD []).length ≠ n := by
      intro he
      exact hs ⟨by rw [hlen, hw], fun row hrow => by rw [hrect row hrow, he]⟩
    refine dotE_err ?_
    simpa [hw] using hne
  · exact quadFormE_err_vec (vecMat_err hcond)

/-- C1, counterexample: for weights [1] and covariance matrix [[-1]] the
quadratic form is -1 < 0, yet portfolio_vol raises nothing: np.sqrt of the
negative number evaluates to the float NaN and the call returns normally, so
the claimed domain-error failure does not happen. -/
theorem portfolioVol_negQuadForm_returns_nan :
    quadFormE [(1 : ℚ)] [[-1]] = .ok (-1) ∧
    portfolio_vol [(1 : ℚ)] [[-1]] = .ok Vol.nan := by
  have h : quadFormE [(1 : ℚ)] [[-1]] = .ok (-1) := by
    rw [quadFormE_ok_vec (vecMat_ok (by norm_num))]
    norm_num [dotE, List.range_succ]
  refine ⟨h, ?_⟩
  rw [portfolio_vol_ok h]
  norm_num [npSqrt]

/-- C1, amended: portfolio_vol(weights, covmat) returns np.sqrt of the
quadratic form weightsᵀ·covmat·weights: the (non-negative) square root when the
form is non-negative, and the float NaN, without raising any error, when the
form is negative. -/
theorem portfolioVol_sqrt_or_nan (w : List ℚ) (cov : List (List ℚ)) (q : ℚ)
    (hq : quadFormE w cov = .ok q) :
    (0 ≤ q → portfolio_vol w cov = .ok (Vol.sqrt q)) ∧
    (q < 0 → portfolio_vol w cov = .ok Vol.nan) := by
  constructor
  · intro h
    rw [portfolio_vol_ok hq]
    simp [npSqrt, not_lt.mpr h]
  · intro h
    rw [portfolio_vol_ok hq]
    simp [npSqrt, h]

/-- C1, witness for the amended theorem at weights [1], covariance [[1]]. -/
theorem portfolioVol_sqrt_or_nan_witness :
    quadFormE [(1 : ℚ)] [[1]] = .ok 1 ∧ (0 : ℚ) ≤ 1 ∧
    portfolio_vol [(1 : ℚ)] [[1]] = .ok (Vol.sqrt 1) := by
  have h : quadFormE [(1 : ℚ)] [[1]] = .ok 1 := by
    rw [quadFormE_ok_vec (vecMat_ok (by norm_num))]
    norm_num [dotE, List.range_succ]
  exact ⟨h, by norm_num, (portfolioVol_sqrt_or_nan _ _ _ h).1 (by norm_num)⟩

/-- C2, amended: minimize_vol and msr perform no shape validation of their own.
With a covariance matrix that is not N x N for N = er.length, the constructed
problem is still handed to the solver and the numpy shape error is raised only
when the objective is evaluated (here: at the initial guess, the first point
SLSQP evaluates), not fail-fast before the solver call. -/
theorem shape_mismatch_error_at_objective (target_return riskfree_rate : ℚ)
    (er : List ℚ) (cov : List (List ℚ)) (hn : 0 < er.length)
    (hs : ¬(cov.length = er.length ∧ ∀ row ∈ cov, row.length = er.length)) :
    (minVolProblem target_return er cov).objective
        (minVolProblem target_return er cov).init = .error matmulErr ∧
    (msrProblem riskfree_rate er cov).objective
        (msrProblem riskfree_rate er cov).init = .error matmulErr := by
  have hinit : (List.replicate er.length (1 / (er.length : ℚ))).length = er.length := by
    simp
  have hq : quadFormE (List.replicate er.length (1 / (er.length : ℚ))) cov
      = .error matmulErr := quadFormE_shape_err er.length hinit hs
  constructor
  · exact portfolio_vol_err hq
  · exact neg_sharpe_obj_vol_err (portfolio_return_ok (by simp [msrProblem])) (portfolio_vol_err hq)

/-- C2, witness for the amended theorem: two expected returns, a 1 x 1
covariance matrix. -/
theorem shape_mismatch_error_at_objective_witness :
    (0 < [(1 : ℚ)/10, 1/5].length ∧
      ¬([[(1 : ℚ)]].length = [(1 : ℚ)/10, 1/5].length ∧
        ∀ row ∈ [[(1 : ℚ)]], row.length = [(1 : ℚ)/10, 1/5].length)) ∧
    (minVolProblem (3/20) [(1 : ℚ)/10, 1/5] [[1]]).objective
        (minVolProblem (3/20) [(1 : ℚ)/10, 1/5] [[1]]).init = .error matmulErr := by
  refine ⟨⟨by norm_num, by norm_num⟩, ?_⟩
  exact (shape_mismatch_error_at_objective (3/20) 0 [(1 : ℚ)/10, 1/5] [[1]]
    (by norm_num) (by norm_num)).1

/-- C2, counterexample to the claim as stated: on the mismatched inputs
er = [0.1, 0.2] (two assets) and cov = [[1]] (one asset), neither minimize_vol
nor msr fails fast: the problem construction succeeds and the abstracted solver
is invoked (an inspecting solver receives the problem and returns its
equal-weight initial guess), while the shape error only arises when the
objective is evaluated on a weight vector. -/
theorem no_fail_fast_shape_check_cex :
    minimize_vol (fun p => p.init) (3/20) [(1 : ℚ)/10, 1/5] [[1]] = [1/2, 1/2] ∧
    msr (fun p => p.init) 0 [(1 : ℚ)/10, 1/5] [[1]] = [1/2, 1/2] ∧
    (minVolProblem (3/20) [(1 : ℚ)/10, 1/5] [[1]]).objective [1/2, 1/2]
      = .error matmulErr ∧
    (msrProblem 0 [(1 : ℚ)/10, 1/5] [[1]]).objective [1/2, 1/2]
      = .error matmulErr := by
  have hq : quadFormE [(1 : ℚ)/2, 1/2] [[1]] = .error matmulErr := by
    refine quadFormE_shape_err 2 ?_ ?_ <;> norm_num
  refine ⟨?_, ?_, ?_, ?_⟩
  · show (minVolProblem (3/20) [(1 : ℚ)/10, 1/5] [[1]]).init = [1/2, 1/2]
    norm_num [minVolProblem, List.replicate]
  · show (msrProblem 0 [(1 : ℚ)/10, 1/5] [[1]]).init = [1/2, 1/2]
    norm_num [msrProblem, List.replicate]
  · exact portfolio_vol_err hq
  · show neg_sharpe_obj [(1 : ℚ)/2, 1/2] 0 [(1 : ℚ)/10, 1/5] [[1]] = .error matmulErr
    have h1 : portfolio_return [(1 : ℚ)/2, 1/2] [(1 : ℚ)/10, 1/5]
        = .ok ((List.zipWith (fun x y => x * y) [(1 : ℚ)/2, 1/2] [(1 : ℚ)/10, 1/5]).sum) :=
      portfolio_return_ok (by norm_num)
    exact neg_sharpe_obj_vol_err h1 (portfolio_vol_err hq)

/-- C10: plot_ef2 raises ValueError with the exact message whenever
er.shape[0] is not 2, and it does so for every covariance matrix and point
count whatsoever - in particular before any weight, return or volatility
computation is reached (those would raise their own shape errors on the
malformed inputs that are irrelevant here). -/
theorem plotEf2_guard (n_points : ℕ) (er : List ℚ) (cov : List (List ℚ))
    (h : er.length ≠ 2) :
    plot_ef2 n_points er cov =
      .error ⟨"ValueError", "plot_ef2 can only plot 2 asset frontiers."⟩ := by
  unfold plot_ef2
  rw [if_pos h]

/-- C10, witness: a single-asset expected-returns vector. -/
theorem plotEf2_guard_witness :
    [(1 : ℚ)/10].length ≠ 2 ∧
    plot_ef2 4 [(1 : ℚ)/10] [[5]] =
      .error ⟨"ValueError", "plot_ef2 can only plot 2 asset frontiers."⟩ :=
  ⟨by norm_num, plotEf2_guard 4 [(1 : ℚ)/10] [[5]] (by norm_num)⟩

/-- C9: var_historic and cvar_historic raise TypeError with the exact message
Expected r to be a Series or DataFrame. on any input that is neither a Series
nor a DataFrame, and on a DataFrame they aggregate column-wise, returning the
per-column Series without raising (stated for DataFrames with nonempty columns,
the domain on which the percentile model is faithful). -/
theorem historic_risk_type_dispatch (level : ℚ) :
    (var_historic RObj.other level = .error typeErr ∧
     cvar_historic RObj.other level = .error typeErr) ∧
    ∀ cols : List (List ℚ), (∀ c ∈ cols, c ≠ []) →
      var_historic (RObj.df cols) level =
        .ok (.series (cols.map (fun c => varSeries c level))) ∧
      cvar_historic (RObj.df cols) level =
        .ok (.series (cols.map (fun c => cvarSeries c level))) :=
  ⟨⟨rfl, rfl⟩, fun _ _ => ⟨rfl, rfl⟩⟩

/-- C9, witness: a one-column DataFrame with one observation. -/
theorem historic_risk_type_dispatch_witness :
    (∀ c ∈ [[(1 : ℚ)/10]], c ≠ []) ∧
    var_historic (RObj.df [[(1 : ℚ)/10]]) 5 =
      .ok (.series ([[(1 : ℚ)/10]].map (fun c => varSeries c 5))) ∧
    cvar_historic (RObj.df [[(1 : ℚ)/10]]) 5 =
      .ok (.series ([[(1 : ℚ)/10]].map (fun c => cvarSeries c 5))) :=
  ⟨by simp, ((historic_risk_type_dispatch 5).2 [[(1 : ℚ)/10]] (by simp)).1,
   ((historic_risk_type_dispatch 5).2 [[(1 : ℚ)/10]] (by simp)).2⟩

/-- C7: when the Sharpe objective inside msr meets a portfolio of zero
volatility (zero quadratic form), the division evaluates to a non-finite float
(+inf, -inf or NaN depending on the sign of the excess return) and the
evaluation returns normally - no exception is thrown. -/
theorem sharpe_zero_vol_nonfinite (w : List ℚ) (riskfree_rate r : ℚ)
    (er : List ℚ) (cov : List (List ℚ))
    (hr : portfolio_return w er = .ok r) (hq : quadFormE w cov = .ok 0) :
    isNonFiniteE (neg_sharpe_obj w riskfree_rate er cov) = true := by
  have hv : portfolio_vol w cov = .ok (Vol.sqrt 0) := by
    rw [portfolio_vol_ok hq]
    norm_num [npSqrt]
  rw [neg_sharpe_obj_ok hr hv]
  unfold mkSR
  rcases lt_trichotomy r riskfree_rate with h | h | h
  · simp [isNonFiniteE, h, asymm h]
  · simp [isNonFiniteE, h]
  · simp [isNonFiniteE, h, asymm h]

/-- C7, witness: portfolio [1, 0] has zero volatility under a zero covariance
matrix and a positive excess return, and the objective returns -inf. -/
theorem sharpe_zero_vol_nonfinite_witness :
    portfolio_return [(1 : ℚ), 0] [1/10, 1/5] = .ok (1/10) ∧
    quadFormE [(1 : ℚ), 0] [[0, 0], [0, 0]] = .ok 0 ∧
    isNonFiniteE (neg_sharpe_obj [(1 : ℚ), 0] 0 [1/10, 1/5] [[0, 0], [0, 0]]) = true := by
  have hr : portfolio_return [(1 : ℚ), 0] [1/10, 1/5] = .ok (1/10) := by
    rw [portfolio_return_ok (by norm_num)]
    norm_num
  have hq : quadFormE [(1 : ℚ), 0] [[0, 0], [0, 0]] = .ok 0 := by
    rw [quadFormE_ok_vec (vecMat_ok (by norm_num))]
    rw [dotE_ok (by norm_num)]
    norm_num [List.range_succ]
  exact ⟨hr, hq, sharpe_zero_vol_nonfinite _ _ _ _ _ hr hq⟩

/-- Bounds constraint over a zipped replicate of (0, 1) pairs is exactly the
pointwise unit-interval condition. -/
theorem zip_replicate_bounds (w : List ℚ) :
    (∀ pr ∈ List.zip w (List.replicate w.length ((0 : ℚ), (1 : ℚ))),
      pr.2.1 ≤ pr.1 ∧ pr.1 ≤ pr.2.2) ↔ (∀ x ∈ w, 0 ≤ x ∧ x ≤ 1) := by
  induction w with
  | nil => simp
  | cons x xs ih =>
      simp only [List.length_cons, List.replicate_succ, List.zip_cons_cons,
        List.forall_mem_cons] at ih ⊢
      exact and_congr Iff.rfl ih

/-- Unfolding of feasibility for the problem minimize_vol constructs: dimension
er.length, unit-interval bounds, full investment, and the target-return
constraint. -/
theorem feasible_minVol_iff (target_return : ℚ) (er : List ℚ) (cov : List (List ℚ))
    (w : List ℚ) :
    Feasible (minVolProblem target_return er cov) w ↔
      (w.length = er.length ∧ (∀ x ∈ w, 0 ≤ x ∧ x ≤ 1) ∧ w.sum = 1 ∧
        portfolio_return w er = .ok target_return) := by
  unfold Feasible minVolProblem
  constructor
  · rintro ⟨h1, h2, h3⟩
    have hc1 : Except.ok (w.sum - 1) = Except.ok 0 := h3 _ (List.mem_cons_self _ _)
    have hc2 : (match portfolio_return w er with
        | .ok r => Except.ok (target_return - r)
        | .error e => Except.error e) = Except.ok 0 :=
      h3 _ (List.mem_cons_of_mem _ (List.mem_cons_self _ _))
    refine ⟨h1, ?_, ?_, ?_⟩
    · rw [← zip_replicate_bounds w]
      intro pr hpr
      exact h2 pr (by rwa [h1] at hpr)
    · have h := Except.ok.inj hc1
      linarith
    · rcases hpr : portfolio_return w er with e | r
      · rw [hpr] at hc2
        exact absurd hc2 (by simp)
      · rw [hpr] at hc2
        have h := Except.ok.inj hc2
        have hr : r = target_return := by linarith
        rw [hr]
  · rintro ⟨h1, h2, h3, h4⟩
    refine ⟨h1, ?_, ?_⟩
    · intro pr hpr
      rw [← h1] at hpr
      exact (zip_replicate_bounds w).mpr h2 pr hpr
    · intro c hc
      rcases List.mem_cons.mp hc with rfl | hc2
      · show Except.ok (w.sum - 1) = Except.ok 0
        rw [h3]
        norm_num
      · rcases List.mem_cons.mp hc2 with rfl | hc3
        · show (match portfolio_return w er with
            | .ok r => Except.ok (target_return - r)
            | .error e => Except.error e) = Except.ok 0
          rw [h4]
          norm_num
        · exact absurd hc3 (List.not_mem_nil c)

/-- Unfolding of feasibility for the problem msr constructs: dimension
er.length, unit-interval bounds, full investment. -/
theorem feasible_msr_iff (riskfree_rate : ℚ) (er : List ℚ) (cov : List (List ℚ))
    (w : List ℚ) :
    Feasible (msrProblem riskfree_rate er cov) w ↔
      (w.length = er.length ∧ (∀ x ∈ w, 0 ≤ x ∧ x ≤ 1) ∧ w.sum = 1) := by
  unfold Feasible msrProblem
  constructor
  · rintro ⟨h1, h2, h3⟩
    have hc1 : Except.ok (w.sum - 1) = Except.ok 0 := h3 _ (List.mem_cons_self _ _)
    refine ⟨h1, ?_, ?_⟩
    · rw [← zip_replicate_bounds w]
      intro pr hpr
      exact h2 pr (by rwa [h1] at hpr)
    · have h := Except.ok.inj hc1
      linarith
  · rintro ⟨h1, h2, h3⟩
    refine ⟨h1, ?_, ?_⟩
    · intro pr hpr
      rw [← h1] at hpr
      exact (zip_replicate_bounds w).mpr h2 pr hpr
    · intro c hc
      rcases List.mem_cons.mp hc with rfl | hc2
      · show Except.ok (w.sum - 1) = Except.ok 0
        rw [h3]
        norm_num
      · exact absurd hc2 (List.not_mem_nil c)

/-- C5: minimize_vol hands the solver exactly the program the specification
describes: objective portfolio_vol(w, cov), equal-weight initial guess 1/N,
box bounds [0, 1] on each coordinate, and feasibility equivalent to
sum(w) = 1 together with portfolio_return(w, er) = target_return. -/
theorem minimizeVol_program_spec (target_return : ℚ) (er : List ℚ)
    (cov : List (List ℚ)) :
    (minVolProblem target_return er cov).dim = er.length ∧
    (minVolProblem target_return er cov).init
      = List.replicate er.length (1 / (er.length : ℚ)) ∧
    (minVolProblem target_return er cov).bounds = List.replicate er.length (0, 1) ∧
    (minVolProblem target_return er cov).objective
      = (fun w => portfolio_vol w cov) ∧
    (∀ w, Feasible (minVolProblem target_return er cov) w ↔
      (w.length = er.length ∧ (∀ x ∈ w, 0 ≤ x ∧ x ≤ 1) ∧ w.sum = 1 ∧
        portfolio_return w er = .ok target_return)) :=
  ⟨rfl, rfl, rfl, rfl, feasible_minVol_iff target_return er cov⟩

/-- C6: any solver output satisfying the constraints minimize_vol put on it
(the converged-solve contract) reproduces the requested target return exactly
under portfolio_return, for any target in the feasible band
[er.min(), er.max()]. -/
theorem minimizeVol_round_trip (solver : OptProblem Vol → List ℚ)
    (target_return : ℚ) (er : List ℚ) (cov : List (List ℚ))
    (hlo : npMin er ≤ target_return) (hhi : target_return ≤ npMax er)
    (hF : Feasible (minVolProblem target_return er cov)
      (solver (minVolProblem target_return er cov))) :
    portfolio_return (minimize_vol solver target_return er cov) er
      = .ok target_return :=
  ((feasible_minVol_iff target_return er cov _).mp hF).2.2.2

/-- C6, witness: two assets with returns [0.1, 0.3], interior target 0.2, a
solver returning the feasible point [1/2, 1/2]. -/
theorem minimizeVol_round_trip_witness :
    (npMin [(1 : ℚ)/10, 3/10] ≤ 1/5 ∧ (1 : ℚ)/5 ≤ npMax [(1 : ℚ)/10, 3/10] ∧
      Feasible (minVolProblem (1/5) [(1 : ℚ)/10, 3/10] [[1, 0], [0, 1]])
        [(1 : ℚ)/2, 1/2]) ∧
    portfolio_return
      (minimize_vol (fun _ => [(1 : ℚ)/2, 1/2]) (1/5) [(1 : ℚ)/10, 3/10]
        [[1, 0], [0, 1]]) [(1 : ℚ)/10, 3/10] = .ok (1/5) := by
  have hF : Feasible (minVolProblem (1/5) [(1 : ℚ)/10, 3/10] [[1, 0], [0, 1]])
      [(1 : ℚ)/2, 1/2] := by
    rw [feasible_minVol_iff]
    refine ⟨by norm_num, by norm_num, by norm_num, ?_⟩
    rw [portfolio_return_ok (by norm_num)]
    norm_num
  refine ⟨⟨by norm_num [npMin], by norm_num [npMax], hF⟩, ?_⟩
  exact minimizeVol_round_trip (fun _ => [(1 : ℚ)/2, 1/2]) (1/5) [(1 : ℚ)/10, 3/10]
    [[1, 0], [0, 1]] (by norm_num [npMin]) (by norm_num [npMax]) hF

/-- C3: whenever the solver result satisfies the constraints the toolkit put on
it (the converged-SLSQP contract), every weight vector coming out of
minimize_vol, msr, gmv, or any element of optimal_weights has length N, all
entries in [0, 1], and entries summing to 1 (exactly, hence within any
tolerance). -/
theorem solver_weights_good (sv : OptProblem Vol → List ℚ)
    (ss : OptProblem SVal → List ℚ) (target_return riskfree_rate : ℚ)
    (n_points : ℕ) (er : List ℚ) (cov : List (List ℚ))
    (h1 : Feasible (minVolProblem target_return er cov)
      (sv (minVolProblem target_return er cov)))
    (h2 : Feasible (msrProblem riskfree_rate er cov)
      (ss (msrProblem riskfree_rate er cov)))
    (h3 : Feasible (msrProblem 0 (List.replicate cov.length 1) cov)
      (ss (msrProblem 0 (List.replicate cov.length 1) cov)))
    (h4 : ∀ t ∈ linspace (npMin er) (npMax er) n_points,
      Feasible (minVolProblem t er cov) (sv (minVolProblem t er cov))) :
    GoodWeights er.length (minimize_vol sv target_return er cov) ∧
    GoodWeights er.length (msr ss riskfree_rate er cov) ∧
    GoodWeights cov.length (gmv ss cov) ∧
    ∀ w ∈ optimal_weights sv n_points er cov, GoodWeights er.length w := by
  refine ⟨?_, ?_, ?_, ?_⟩
  · have h := (feasible_minVol_iff target_return er cov _).mp h1
    exact ⟨h.1, h.2.1, h.2.2.1⟩
  · have h := (feasible_msr_iff riskfree_rate er cov _).mp h2
    exact ⟨h.1, h.2.1, h.2.2⟩
  · have h := (feasible_msr_iff 0 (List.replicate cov.length 1) cov _).mp h3
    exact ⟨by simpa using h.1, h.2.1, h.2.2⟩
  · intro w hw
    simp only [optimal_weights, List.mem_map] at hw
    obtain ⟨t, ht, rfl⟩ := hw
    have h := (feasible_minVol_iff t er cov _).mp (h4 t ht)
    exact ⟨h.1, h.2.1, h.2.2.1⟩

/-- C3, witness: identical expected returns 0.1 on two assets, identity
covariance, one frontier point, a solver returning [1/2, 1/2] everywhere. -/
theorem solver_weights_good_witness :
    GoodWeights 2 (minimize_vol (fun _ => [(1 : ℚ)/2, 1/2]) (1/10)
      [(1 : ℚ)/10, 1/10] [[1, 0], [0, 1]]) ∧
    GoodWeights 2 (msr (fun _ => [(1 : ℚ)/2, 1/2]) 0 [(1 : ℚ)/10, 1/10]
      [[1, 0], [0, 1]]) ∧
    GoodWeights 2 (gmv (fun _ => [(1 : ℚ)/2, 1/2]) [[(1 : ℚ), 0], [0, 1]]) ∧
    ∀ w ∈ optimal_weights (fun _ => [(1 : ℚ)/2, 1/2]) 1 [(1 : ℚ)/10, 1/10]
      [[1, 0], [0, 1]], GoodWeights 2 w := by
  have hmv : Feasible (minVolProblem (1/10) [(1 : ℚ)/10, 1/10] [[1, 0], [0, 1]])
      [(1 : ℚ)/2, 1/2] := by
    rw [feasible_minVol_iff]
    refine ⟨by norm_num, by norm_num, by norm_num, ?_⟩
    rw [portfolio_return_ok (by norm_num)]
    norm_num
  have hms : Feasible (msrProblem 0 [(1 : ℚ)/10, 1/10] [[1, 0], [0, 1]])
      [(1 : ℚ)/2, 1/2] := by
    rw [feasible_msr_iff]
    norm_num
  have hg : Feasible (msrProblem 0 (List.replicate 2 1) [[(1 : ℚ), 0], [0, 1]])
      [(1 : ℚ)/2, 1/2] := by
    rw [feasible_msr_iff]
    norm_num
  have h4 : ∀ t ∈ linspace (npMin [(1 : ℚ)/10, 1/10]) (npMax [(1 : ℚ)/10, 1/10]) 1,
      Feasible (minVolProblem t [(1 : ℚ)/10, 1/10] [[1, 0], [0, 1]])
        ((fun _ => [(1 : ℚ)/2, 1/2]) (minVolProblem t [(1 : ℚ)/10, 1/10]
          [[1, 0], [0, 1]])) := by
    intro t ht
    have hteq : t = 1/10 := by
      simpa [linspace, npMin, npMax] using ht
    rw [hteq]
    exact hmv
  exact solver_weights_good (fun _ => [(1 : ℚ)/2, 1/2]) (fun _ => [(1 : ℚ)/2, 1/2])
    (1/10) 0 1 [(1 : ℚ)/10, 1/10] [[1, 0], [0, 1]] hmv hms hg h4

/-- Sum of a zipWith over two length-n lists as a sum over Fin n of getD
entries. -/
theorem zipWith_sum_fin {α β : Type} (f : α → β → ℚ) (da : α) (db : β) :
    ∀ (n : ℕ) (a : List α) (b : List β), a.length = n → b.length = n →
      (List.zipWith f a b).sum = ∑ i : Fin n, f (a.getD i da) (b.getD i db) := by
  intro n
  induction n with
  | zero =>
      intro a b ha hb
      rw [List.length_eq_zero] at ha hb
      subst ha
      subst hb
      simp
  | succ n ih =>
      intro a b ha hb
      cases a with
      | nil => simp at ha
      | cons x a =>
        cases b with
        | nil => simp at hb
        | cons y b =>
          simp only [List.zipWith_cons_cons, List.sum_cons]
          rw [ih a b (by simpa using ha) (by simpa using hb), Fin.sum_univ_succ]
          simp [Fin.val_succ]

/-- For a square shape, the leading row of the matrix has length n. -/
theorem head_len_sq {cov : List (List ℚ)} {n : ℕ} (hc : cov.length = n)
    (hr : ∀ row ∈ cov, row.length = n) : (cov.headD []).length = n := by
  cases cov with
  | nil => simpa using hc
  | cons r rest => simpa using hr r (List.mem_cons_self r rest)

/-- Entry of a mapped range list. -/
theorem getD_range_map (g : ℕ → ℚ) (n : ℕ) (j : Fin n) :
    ((List.range n).map g).getD (j : ℕ) 0 = g j := by
  rw [List.getD_eq_getElem]
  · simp
  · simpa using j.isLt

/-- Entry of an ofFn list below the length bound. -/
theorem getD_ofFn {α : Type} (d : α) {n : ℕ} (f : Fin n → α) (i : Fin n) :
    (List.ofFn f).getD (i : ℕ) d = f i := by
  rw [List.getD_eq_getElem]
  · simp
  · simpa using i.isLt

/-- Closed form of the quadratic form on square inputs: the double sum
(weights.T @ covmat) @ weights over Fin n indices. -/
theorem quadFormE_sq (n : ℕ) (w : List ℚ) (cov : List (List ℚ))
    (hw : w.length = n) (hc : cov.length = n)
    (hr : ∀ row ∈ cov, row.length = n) :
    quadFormE w cov = .ok (∑ j : Fin n,
      (∑ i : Fin n, w.getD (i : ℕ) 0 * (cov.getD (i : ℕ) []).getD (j : ℕ) 0)
        * w.getD (j : ℕ) 0) := by
  have hncols : (cov.headD []).length = n := head_len_sq hc hr
  rw [quadFormE_ok_vec (vecMat_ok ⟨by rw [hc, hw],
    fun row hrow => by rw [hr row hrow, hncols]⟩)]
  rw [dotE_ok (by simp only [List.length_map, List.length_range, hncols, hw])]
  congr 1
  rw [hncols]
  rw [zipWith_sum_fin (fun x y => x * y) 0 0 n _ w (by simp) hw]
  apply Finset.sum_congr rfl
  intro j _
  congr 1
  rw [getD_range_map]
  exact zipWith_sum_fin (fun x row => x * row.getD (j : ℕ) 0) 0 [] n w cov hw hc

/-- C8: portfolio_vol is invariant under a simultaneous permutation of the
weight entries and of the rows and columns of the covariance matrix. -/
theorem portfolioVol_perm_invariant (n : ℕ) (π : Equiv.Perm (Fin n))
    (w : List ℚ) (cov : List (List ℚ)) (hw : w.length = n)
    (hc : cov.length = n) (hr : ∀ row ∈ cov, row.length = n) :
    portfolio_vol (permVec π w) (permMat π cov) = portfolio_vol w cov := by
  have h1 := quadFormE_sq n w cov hw hc hr
  have hpw : (permVec π w).length = n := by simp [permVec]
  have hpc : (permMat π cov).length = n := by simp [permMat]
  have hpr : ∀ row ∈ permMat π cov, row.length = n := by
    intro row hrow
    rw [permMat, List.mem_ofFn] at hrow
    obtain ⟨i, rfl⟩ := hrow
    simp
  have h2 := quadFormE_sq n (permVec π w) (permMat π cov) hpw hpc hpr
  have e1 : ∀ i : Fin n, (permVec π w).getD (i : ℕ) 0 = w.getD ((π i : Fin n) : ℕ) 0 :=
    fun i => getD_ofFn 0 (fun k => w.getD ((π k : Fin n) : ℕ) 0) i
  have e2 : ∀ i j : Fin n, ((permMat π cov).getD (i : ℕ) []).getD (j : ℕ) 0
      = (cov.getD ((π i : Fin n) : ℕ) []).getD ((π j : Fin n) : ℕ) 0 := by
    intro i j
    rw [permMat, getD_ofFn [] (fun a => List.ofFn
      (fun b => (cov.getD ((π a : Fin n) : ℕ) []).getD ((π b : Fin n) : ℕ) 0)) i]
    exact getD_ofFn 0 (fun b => (cov.getD ((π i : Fin n) : ℕ) []).getD ((π b : Fin n) : ℕ) 0) j
  have hperm : (∑ j : Fin n,
      (∑ i : Fin n, (permVec π w).getD (i : ℕ) 0 *
        ((permMat π cov).getD (i : ℕ) []).getD (j : ℕ) 0)
          * (permVec π w).getD (j : ℕ) 0)
      = ∑ j : Fin n,
      (∑ i : Fin n, w.getD (i : ℕ) 0 * (cov.getD (i : ℕ) []).getD (j : ℕ) 0)
        * w.getD (j : ℕ) 0 := by
    simp only [e1, e2]
    have inner : ∀ j : Fin n,
        (∑ i : Fin n, w.getD ((π i : Fin n) : ℕ) 0 *
          (cov.getD ((π i : Fin n) : ℕ) []).getD ((π j : Fin n) : ℕ) 0)
        = ∑ i : Fin n, w.getD (i : ℕ) 0 *
          (cov.getD (i : ℕ) []).getD ((π j : Fin n) : ℕ) 0 := fun j =>
      Equiv.sum_comp π
        (fun i => w.getD (i : ℕ) 0 * (cov.getD (i : ℕ) []).getD ((π j : Fin n) : ℕ) 0)
    simp only [inner]
    exact Equiv.sum_comp π (fun j =>
      (∑ i : Fin n, w.getD (i : ℕ) 0 * (cov.getD (i : ℕ) []).getD (j : ℕ) 0)
        * w.getD (j : ℕ) 0)
  rw [portfolio_vol_ok h2, portfolio_vol_ok h1, hperm]

/-- C8, witness: the swap permutation on two assets. -/
theorem portfolioVol_perm_invariant_witness :
    [(1 : ℚ)/3, 2/3].length = 2 ∧ [[(1 : ℚ), 2], [2, 3]].length = 2 ∧
    (∀ row ∈ [[(1 : ℚ), 2], [2, 3]], row.length = 2) ∧
    portfolio_vol (permVec (Equiv.swap (0 : Fin 2) 1) [(1 : ℚ)/3, 2/3])
        (permMat (Equiv.swap (0 : Fin 2) 1) [[(1 : ℚ), 2], [2, 3]])
      = portfolio_vol [(1 : ℚ)/3, 2/3] [[(1 : ℚ), 2], [2, 3]] :=
  ⟨rfl, rfl, by simp,
    portfolioVol_perm_invariant 2 (Equiv.swap (0 : Fin 2) 1) [(1 : ℚ)/3, 2/3]
      [[(1 : ℚ), 2], [2, 3]] rfl rfl (by simp)⟩

/-- Dot product against a constant vector is the constant times the sum. -/
theorem zipWith_mul_replicate (c : ℚ) : ∀ (n : ℕ) (w : List ℚ), w.length = n →
    (List.zipWith (fun x y => x * y) w (List.replicate n c)).sum = c * w.sum := by
  intro n
  induction n with
  | zero =>
      intro w hw
      rw [List.length_eq_zero] at hw
      subst hw
      simp
  | succ n ih =>
      intro w hw
      cases w with
      | nil => simp at hw
      | cons x xs =>
          simp only [List.replicate_succ, List.zipWith_cons_cons, List.sum_cons]
          rw [ih xs (by simpa using hw)]
          ring

/-- On a fully invested weight vector, the msr objective with expected returns
all equal to c and risk-free rate 0 reduces to -c divided by the volatility. -/
theorem neg_sharpe_obj_replicate {n : ℕ} {c : ℚ} {cov : List (List ℚ)}
    {w : List ℚ} (hw : w.length = n) (hsum : w.sum = 1) :
    neg_sharpe_obj w 0 (List.replicate n c) cov =
      match quadFormE w cov with
      | .ok q => .ok (mkSR (-c) (npSqrt q))
      | .error e => .error e := by
  have hr : portfolio_return w (List.replicate n c) = .ok c := by
    rw [portfolio_return_ok (by simp [hw])]
    rw [zipWith_mul_replicate c n w hw, hsum, mul_one]
  unfold neg_sharpe_obj
  rw [hr]
  cases hq : quadFormE w cov with
  | ok q =>
      rw [portfolio_vol_ok hq]
      norm_num
  | error e => rw [portfolio_vol_err hq]

/-- Evaluation of the msr objective value -c/sqrt q for a positive excess
constant c: NaN on a negative radicand, -inf on a zero one, and the symbolic
fraction otherwise. -/
theorem mkSR_neg_eval (c q : ℚ) (hc : 0 < c) :
    mkSR (-c) (npSqrt q)
      = if q < 0 then SVal.nan else if q = 0 then SVal.ninf
        else SVal.frac (-c) q := by
  unfold mkSR npSqrt
  rcases lt_trichotomy q 0 with h | h | h
  · simp [h]
  · subst h
    simp [lt_irrefl, show ¬(0 : ℚ) < -c by linarith, show -c < 0 by linarith]
  · simp [h, asymm h, h.ne']

/-- The IEEE comparison of two msr objective values -c/sqrt q and -c/sqrt r
does not depend on the (positive) constant c: it always reduces to the
comparison of the radicands. -/
theorem le_mkSR_neg_iff {c d q r : ℚ} (hc : 0 < c) (hd : 0 < d) :
    SVal.le (mkSR (-c) (npSqrt q)) (mkSR (-c) (npSqrt r))
      = SVal.le (mkSR (-d) (npSqrt q)) (mkSR (-d) (npSqrt r)) := by
  rw [mkSR_neg_eval c q hc, mkSR_neg_eval c r hc, mkSR_neg_eval d q hd,
    mkSR_neg_eval d r hd]
  rcases lt_trichotomy q 0 with hq | hq | hq
  · simp [hq, SVal.le]
  · rcases lt_trichotomy r 0 with hr | hr | hr
    · simp [hq, hr, SVal.le, lt_irrefl]
    · simp [hq, hr, SVal.le, lt_irrefl]
    · simp [hq, hr, SVal.le, lt_irrefl, asymm hr, hr.ne']
  · rcases lt_trichotomy r 0 with hr | hr | hr
    · simp [hq, hr, SVal.le, asymm hq, hq.ne']
    · simp [hq, hr, SVal.le, lt_irrefl, asymm hq, hq.ne']
    · simp only [if_neg (asymm hq), if_neg hq.ne', if_neg (asymm hr), if_neg hr.ne']
      have key : ∀ e : ℚ, 0 < e →
          (SVal.le (SVal.frac (-e) q) (SVal.frac (-e) r) = decide (q ≤ r)) := by
        intro e he
        have h1 : ¬(0 : ℚ) < -e := by linarith
        have h2 : ¬(0 : ℚ) ≤ -e := by linarith
        simp only [SVal.le, if_neg h1, if_neg h2]
        rw [decide_eq_decide]
        have hee : (0 : ℚ) < e * e := mul_pos he he
        have e1 : -e * -e * q = e * e * q := by ring
        have e2 : -e * -e * r = e * e * r := by ring
        constructor
        · intro h
          exact (mul_le_mul_left hee).mp (by linarith)
        · intro h
          have h2 := (mul_le_mul_left hee).mpr h
          linarith
      rw [key c hc, key d hd]

/-- With risk-free rate 0 and all expected returns equal to a positive c, the
set of exact optima of the msr program is contained in the one for any other
positive constant d: on the common feasible set the two objectives are ordered
identically. -/
theorem optimal_subset (n : ℕ) (c d : ℚ) (hc : 0 < c) (hd : 0 < d)
    (cov : List (List ℚ)) :
    OptimalSet (msrProblem 0 (List.replicate n c) cov) ⊆
      OptimalSet (msrProblem 0 (List.replicate n d) cov) := by
  intro w hw
  obtain ⟨hwF, hall⟩ := hw
  have hwG := (feasible_msr_iff 0 (List.replicate n c) cov w).mp hwF
  have hwlen : w.length = n := by simpa using hwG.1
  have hwsum : w.sum = 1 := hwG.2.2
  have hwFd : Feasible (msrProblem 0 (List.replicate n d) cov) w := by
    rw [feasible_msr_iff]
    exact ⟨by simp [hwlen], hwG.2.1, hwsum⟩
  refine ⟨hwFd, ?_⟩
  intro u huF
  have huG := (feasible_msr_iff 0 (List.replicate n d) cov u).mp huF
  have hulen : u.length = n := by simpa using huG.1
  have husum : u.sum = 1 := huG.2.2
  have huFc : Feasible (msrProblem 0 (List.replicate n c) cov) u := by
    rw [feasible_msr_iff]
    exact ⟨by simp [hulen], huG.2.1, husum⟩
  obtain ⟨a, b, ha, hb, hab⟩ := hall u huFc
  have haw : neg_sharpe_obj w 0 (List.replicate n c) cov = .ok a := ha
  have hbu : neg_sharpe_obj u 0 (List.replicate n c) cov = .ok b := hb
  rw [neg_sharpe_obj_replicate hwlen hwsum] at haw
  rw [neg_sharpe_obj_replicate hulen husum] at hbu
  rcases hqw : quadFormE w cov with e | qw
  · rw [hqw] at haw
    exact absurd haw (by simp)
  rcases hqu : quadFormE u cov with e | qu
  · rw [hqu] at hbu
    exact absurd hbu (by simp)
  rw [hqw] at haw
  rw [hqu] at hbu
  have haw2 : a = mkSR (-c) (npSqrt qw) := (Except.ok.inj haw).symm
  have hbu2 : b = mkSR (-c) (npSqrt qu) := (Except.ok.inj hbu).symm
  refine ⟨mkSR (-d) (npSqrt qw), mkSR (-d) (npSqrt qu), ?_, ?_, ?_⟩
  · show neg_sharpe_obj w 0 (List.replicate n d) cov = _
    rw [neg_sharpe_obj_replicate hwlen hwsum, hqw]
  · show neg_sharpe_obj u 0 (List.replicate n d) cov = _
    rw [neg_sharpe_obj_replicate hulen husum, hqu]
  · rw [← le_mkSR_neg_iff hc hd, ← haw2, ← hbu2]
    exact hab

/-- Concrete quadratic form for two assets under the diagonal covariance
matrix diag(1, 4). -/
theorem quadForm_eval2 (x y : ℚ) :
    quadFormE [x, y] [[(1 : ℚ), 0], [0, 4]] = .ok (x * x + 4 * (y * y)) := by
  rw [quadFormE_sq 2 [x, y] [[(1 : ℚ), 0], [0, 4]] rfl rfl (by simp)]
  congr 1
  simp [Fin.sum_univ_two]
  ring

/-- C4, counterexample to the claim as stated: with risk-free rate 0 and the
all-equal (but negative) expected-returns vector [-1, -1] over the covariance
matrix diag(1, 4), maximizing the Sharpe ratio means maximizing volatility, so
the max-variance corner [0, 1] is msr-optimal, while it is not optimal for the
problem gmv solves (msr with the all-ones vector), whose optima minimize
volatility.  The two solver outputs therefore need not agree for equal
expected returns in general. -/
theorem msr_gmv_equal_er_cex :
    [(0 : ℚ), 1] ∈ OptimalSet (msrProblem 0 [-1, -1] [[1, 0], [0, 4]]) ∧
    [(0 : ℚ), 1] ∉ OptimalSet (msrProblem 0 (List.replicate 2 1) [[1, 0], [0, 4]]) := by
  have herep : ([-1, -1] : List ℚ) = List.replicate 2 (-1) := rfl
  have how1 : neg_sharpe_obj [(0 : ℚ), 1] 0 [-1, -1] [[1, 0], [0, 4]]
      = .ok (mkSR 1 (npSqrt 4)) := by
    rw [herep, neg_sharpe_obj_replicate (by norm_num) (by norm_num), quadForm_eval2]
    norm_num
  constructor
  · refine ⟨by rw [feasible_msr_iff]; norm_num, ?_⟩
    intro u huF
    have huG := (feasible_msr_iff 0 [-1, -1] [[1, 0], [0, 4]] u).mp huF
    have hulen : u.length = 2 := by simpa using huG.1
    rcases u with _ | ⟨x, _ | ⟨y, _ | ⟨z, u⟩⟩⟩
    · simp at hulen
    · simp at hulen
    · have hx := huG.2.1 x (by simp)
      have hy := huG.2.1 y (by simp)
      have hsum : x + y = 1 := by simpa using huG.2.2
      have hou : neg_sharpe_obj [x, y] 0 [-1, -1] [[1, 0], [0, 4]]
          = .ok (mkSR 1 (npSqrt (x * x + 4 * (y * y)))) := by
        rw [herep, neg_sharpe_obj_replicate (by norm_num) (by simpa using huG.2.2),
          quadForm_eval2]
        norm_num
      refine ⟨mkSR 1 (npSqrt 4), mkSR 1 (npSqrt (x * x + 4 * (y * y))), how1, hou, ?_⟩
      have hq4 : mkSR (1 : ℚ) (npSqrt 4) = SVal.frac 1 4 := by
        norm_num [mkSR, npSqrt]
      have hqnn : (0 : ℚ) ≤ x * x + 4 * (y * y) := by
        nlinarith [mul_self_nonneg x, mul_self_nonneg y]
      rcases eq_or_lt_of_le hqnn with hz | hpos
      · have hzp : mkSR (1 : ℚ) (npSqrt (x * x + 4 * (y * y))) = SVal.pinf := by
          rw [← hz]
          norm_num [mkSR, npSqrt]
        rw [hq4, hzp]
        rfl
      · have hle4 : x * x + 4 * (y * y) ≤ 4 := by
          nlinarith [hx.1, hx.2, hy.1, hy.2]
        have hfr : mkSR (1 : ℚ) (npSqrt (x * x + 4 * (y * y)))
            = SVal.frac 1 (x * x + 4 * (y * y)) := by
          norm_num [mkSR, npSqrt, not_lt.mpr (le_of_lt hpos), hpos.ne']
        rw [hq4, hfr]
        simp only [SVal.le, if_pos (by norm_num : (0 : ℚ) < 1)]
        simp only [Bool.and_eq_true, decide_eq_true_eq]
        constructor
        · norm_num
        · nlinarith [hle4]
    · simp at hulen
  · rintro ⟨hF, hall⟩
    obtain ⟨a, b, ha, hb, hab⟩ := hall [1, 0]
      (by rw [feasible_msr_iff]; norm_num)
    have how : neg_sharpe_obj [(0 : ℚ), 1] 0 (List.replicate 2 1) [[1, 0], [0, 4]]
        = .ok (mkSR (-1) (npSqrt 4)) := by
      rw [neg_sharpe_obj_replicate (by norm_num) (by norm_num), quadForm_eval2]
      norm_num
    have hou : neg_sharpe_obj [(1 : ℚ), 0] 0 (List.replicate 2 1) [[1, 0], [0, 4]]
        = .ok (mkSR (-1) (npSqrt 1)) := by
      rw [neg_sharpe_obj_replicate (by norm_num) (by norm_num), quadForm_eval2]
      norm_num
    have ha2 : a = mkSR (-1) (npSqrt 4) := by
      have h := ha
      rw [show ((msrProblem 0 (List.replicate 2 1) [[(1 : ℚ), 0], [0, 4]]).objective
        [(0 : ℚ), 1]) = neg_sharpe_obj [(0 : ℚ), 1] 0 (List.replicate 2 1)
          [[1, 0], [0, 4]] from rfl, how] at h
      exact (Except.ok.inj h).symm
    have hb2 : b = mkSR (-1) (npSqrt 1) := by
      have h := hb
      rw [show ((msrProblem 0 (List.replicate 2 1) [[(1 : ℚ), 0], [0, 4]]).objective
        [(1 : ℚ), 0]) = neg_sharpe_obj [(1 : ℚ), 0] 0 (List.replicate 2 1)
          [[1, 0], [0, 4]] from rfl, hou] at h
      exact (Except.ok.inj h).symm
    rw [ha2, hb2] at hab
    norm_num [mkSR, npSqrt, SVal.le] at hab

/-- C4, amended: gmv(cov) is literally the call msr(0, ones, cov); and for a
risk-free rate of 0 and an expected-returns vector with all entries equal to
one positive constant c, the msr program has exactly the same set of exact
optima as the program gmv solves (all-ones expected returns), so an exact
solver returns interchangeable weight vectors for the two.  (The positivity
restriction is forced by the counterexample with equal negative returns.) -/
theorem gmv_msr_ones_and_positive_equal_er :
    (∀ (solver : OptProblem SVal → List ℚ) (cov : List (List ℚ)),
      gmv solver cov = msr solver 0 (List.replicate cov.length 1) cov) ∧
    (∀ (n : ℕ) (c : ℚ) (cov : List (List ℚ)), 0 < c →
      OptimalSet (msrProblem 0 (List.replicate n c) cov)
        = OptimalSet (msrProblem 0 (List.replicate n 1) cov)) := by
  refine ⟨fun solver cov => rfl, fun n c cov hc => ?_⟩
  apply Set.Subset.antisymm
  · exact optimal_subset n c 1 hc one_pos cov
  · exact optimal_subset n 1 c one_pos hc cov

/-- C4, witness for the amended theorem: c = 2 on two assets with identity
covariance, and the gmv identity on a 1 x 1 covariance. -/
theorem gmv_msr_ones_and_positive_equal_er_witness :
    (0 : ℚ) < 2 ∧
    gmv (fun p => p.init) [[(1 : ℚ)]]
      = msr (fun p => p.init) 0 (List.replicate 1 1) [[(1 : ℚ)]] ∧
    OptimalSet (msrProblem 0 (List.replicate 2 (2 : ℚ)) [[1, 0], [0, 1]])
      = OptimalSet (msrProblem 0 (List.replicate 2 (1 : ℚ)) [[1, 0], [0, 1]]) :=
  ⟨by norm_num,
   gmv_msr_ones_and_positive_equal_er.1 (fun p => p.init) [[(1 : ℚ)]],
   gmv_msr_ones_and_positive_equal_er.2 2 2 [[1, 0], [0, 1]] (by norm_num)⟩

/-- C5, witness: the program handed to the solver at a concrete instance. -/
theorem minimizeVol_program_spec_witness :
    (minVolProblem (1/10) [(1 : ℚ)/10] [[1]]).dim = [(1 : ℚ)/10].length ∧
    (minVolProblem (1/10) [(1 : ℚ)/10] [[1]]).init
      = List.replicate [(1 : ℚ)/10].length (1 / ([(1 : ℚ)/10].length : ℚ)) ∧
    (minVolProblem (1/10) [(1 : ℚ)/10] [[1]]).bounds
      = List.replicate [(1 : ℚ)/10].length (0, 1) ∧
    (minVolProblem (1/10) [(1 : ℚ)/10] [[1]]).objective
      = (fun w => portfolio_vol w [[1]]) ∧
    (∀ w, Feasible (minVolProblem (1/10) [(1 : ℚ)/10] [[1]]) w ↔
      (w.length = [(1 : ℚ)/10].length ∧ (∀ x ∈ w, 0 ≤ x ∧ x ≤ 1) ∧ w.sum = 1 ∧
        portfolio_return w [(1 : ℚ)/10] = .ok (1/10))) :=
  minimizeVol_program_spec (1/10) [(1 : ℚ)/10] [[1]]
